import Mathlib

/-!
Verification development for the AutoCFO repository
(`src/engine.py`, `src/dashboard.py`, `src/main.py`).

Shallow embedding conventions:
* Python strings are modelled as lists of Unicode code points (`List Nat`);
  `str.lower()` is modelled at the ASCII level (code points 65–90 map to
  97–122, everything else is fixed), and Python's substring test
  `needle in haystack` is modelled by `List.IsInfix`.
* `float` amounts are modelled as exact rationals (`ℚ`).
* Dates are reduced to the `(year, month)` pair, the only parts the
  pipeline ever reads (`dt.year`, `dt.month`).
* Fallible steps of `FinancialEngine.run` are modelled with `Except`.
-/

namespace AutoCFO

/-- A Python string: a list of Unicode code points. -/
abbrev Str := List Nat

/-- Conversion of a Lean string literal to its code-point model. -/
def str (s : String) : Str := s.data.map Char.toNat

/-- ASCII uppercase test on a code point (`A`–`Z`, i.e. 65–90). -/
def isUpperCp (n : Nat) : Bool := 65 ≤ n && n ≤ 90

/-- ASCII model of Python `str.lower` on one code point. -/
def lowerCp (n : Nat) : Nat := if isUpperCp n then n + 32 else n

/-- Model of Python `str.lower`: lower every code point. -/
def lowerStr (s : Str) : Str := s.map lowerCp

/-- Model of Python's substring test `needle in haystack`. -/
def isSub (needle haystack : Str) : Bool := decide (needle <:+: haystack)

/-- The sentinel category returned by `FinancialEngine._get_category`
when no keyword of any category matches. -/
def uncategorized : Str := str ("Uncategorized")

/-- An ordered rule set: `config['categories']` as an ordered association
list from category name to keyword list (Python dicts preserve insertion
order, which is the declared order of the configuration file). -/
abbrev Rules := List (Str × List Str)

/-- The nested `for category ... for keyword ... return category` loops of
`FinancialEngine._get_category` (src/engine.py lines 30–34), acting on the
already lower-cased description. -/
def firstMatch : Rules → Str → Str
  | [], _ => uncategorized
  | (category, keywords) :: rest, descLower =>
    if keywords.any (fun keyword => isSub keyword descLower) then category
    else firstMatch rest descLower

/-- `FinancialEngine._get_category` (src/engine.py lines 28–34):
lower-case the description, then scan the categories in declared order and
return the first whose keyword list has a substring match; fall back to
`"Uncategorized"`. -/
def getCategory (rules : Rules) (description : Str) : Str :=
  firstMatch rules (lowerStr description)

/-! ### The interactive viewer's classifier (src/dashboard.py lines 45–50) -/

def viewerRevenueKws : List Str :=
  [str ("stripe"), str ("income"), str ("deposit"), str ("consulting")]

def viewerTechKws : List Str :=
  [str ("github"), str ("server"), str ("hosting"), str ("software")]

def viewerMealsKws : List Str :=
  [str ("starbucks"), str ("food"), str ("meal")]

/-- `categorize` from src/dashboard.py lines 45–50: hard-coded keyword
chains with fallback `"Operating Exp"`. -/
def categorize (desc : Str) : Str :=
  let d := lowerStr desc
  if viewerRevenueKws.any (fun x => isSub x d) then str ("Revenue")
  else if viewerTechKws.any (fun x => isSub x d) then str ("Tech")
  else if viewerMealsKws.any (fun x => isSub x d) then str ("Meals")
  else str ("Operating Exp")

/-- The viewer's hard-coded keyword rules presented as an ordered rule set,
for comparison with the engine's classifier. -/
def viewerRules : Rules :=
  [(str ("Revenue"), viewerRevenueKws),
   (str ("Tech"), viewerTechKws),
   (str ("Meals"), viewerMealsKws)]

/-! ### Spec-side restatement of the classifier (for the refinement claim) -/

/-- Restatement of the classifier following the specification's words
(spec §4.2): "lower-case the description; for each category in the rule
set's declared order, test whether any of its keywords is a substring of
the lower-cased description; return the first category with a match; if no
category matches, return `"Uncategorized"`" — expressed with `List.find?`.
To be compared with `getCategory`, which is translated from the code. -/
def specClassifier (rules : Rules) (description : Str) : Str :=
  match rules.find? (fun p => p.2.any (fun k => isSub k (lowerStr description))) with
  | some p => p.1
  | none => uncategorized

/-- The rule set with every keyword containing an ASCII uppercase code
point removed (used to state the implicit dead-keyword claim). -/
def stripUpperKeywords (rules : Rules) : Rules :=
  rules.map fun p => (p.1, p.2.filter fun k => !k.any isUpperCp)

/-! ### Data model

Amounts are kept abstract over a linearly ordered additive commutative
group `R` (the program's floats are modelled by exact arithmetic; both `ℚ`
and `ℤ` instantiate `R`). Dates are reduced to `(year, month)`, the only
fields the pipeline reads. -/

/-- A parsed calendar date, reduced to the fields the pipeline reads
(`dt.year` and `dt.month`). -/
structure Date where
  year : Int
  month : Nat
deriving DecidableEq

/-- A raw CSV row after column renaming (src/engine.py lines 46–50):
each field holds `none` when the corresponding parse failed or the cell
was missing (`NaT` / `NaN`), mirroring `errors='coerce'`. -/
structure RawRow (R : Type) where
  date? : Option Date
  description? : Option Str
  amount? : Option R
deriving DecidableEq

/-- A cleaned transaction record (one row of the dataframe after
src/engine.py lines 53–56). -/
structure Txn (R : Type) where
  date : Date
  description : Str
  amount : R
deriving DecidableEq

/-- A classified transaction (after src/engine.py line 57). -/
structure CTxn (R : Type) extends Txn R where
  category : Str
deriving DecidableEq

/-- Python's default whitespace set for `str.strip` (space, tab, newline,
carriage return, vertical tab, form feed), as code points. -/
def isSpaceCp (n : Nat) : Bool :=
  n = 32 || n = 9 || n = 10 || n = 13 || n = 11 || n = 12

/-- Model of `str.strip()`: drop leading and trailing whitespace. -/
def strip (s : Str) : Str :=
  ((s.dropWhile isSpaceCp).reverse.dropWhile isSpaceCp).reverse

section Cleaning

variable {R : Type} [Zero R]

/-- The cleaning of one row (src/engine.py lines 53–56): a row whose date
failed to parse is dropped (`dropna(subset=['Date'])`); a missing
description becomes the empty string and is stripped
(`fillna("").astype(str).str.strip()`); an amount that failed to parse
becomes `0` (`to_numeric(errors='coerce').fillna(0)`) and the row is
kept. -/
def cleanRow (r : RawRow R) : Option (Txn R) :=
  r.date?.map fun d =>
    { date := d
      description := strip (r.description?.getD [])
      amount := r.amount?.getD 0 }

/-- Cleaning of the whole dataframe (src/engine.py lines 53–56). -/
def cleanRows (rows : List (RawRow R)) : List (Txn R) :=
  rows.filterMap cleanRow

/-- Classification of one cleaned row (src/engine.py line 57). -/
def classify (rules : Rules) (t : Txn R) : CTxn R :=
  { t with category := getCategory rules t.description }

end Cleaning

/-! ### Aggregations (src/engine.py lines 61–77) -/

/-- The category name excluded from the expense breakdown. -/
def revenueStr : Str := str ("Revenue")

/-- Lexicographic code-point comparison of strings, as Python compares
strings when pandas sorts group keys. -/
def leStr : Str → Str → Bool
  | [], _ => true
  | _ :: _, [] => false
  | a :: as, b :: bs => if a < b then true else if b < a then false else leStr as bs

/-- `leStr` as a decidable relation. -/
def strLeP (a b : Str) : Prop := leStr a b = true

instance : DecidableRel strLeP := fun a b => inferInstanceAs (Decidable (leStr a b = true))

/-- Strict lexicographic code-point comparison of strings. -/
def strLtP (a b : Str) : Prop := strLeP a b ∧ a ≠ b

instance : IsTotal Str strLeP := by
  constructor
  intro a
  induction a with
  | nil => intro b; exact Or.inl rfl
  | cons x xs ih =>
    intro b
    cases b with
    | nil => exact Or.inr rfl
    | cons y ys =>
      rcases Nat.lt_trichotomy x y with h | h | h
      · left; simp [strLeP, leStr, h]
      · subst h
        rcases ih ys with h' | h'
        · left
          simp only [strLeP, leStr, if_neg (Nat.lt_irrefl x)]
          exact h'
        · right
          simp only [strLeP, leStr, if_neg (Nat.lt_irrefl x)]
          exact h'
      · right; simp [strLeP, leStr, h]

instance : IsTrans Str strLeP := by
  constructor
  intro a
  induction a with
  | nil => intro b c _ _; exact rfl
  | cons x xs ih =>
    intro b c hab hbc
    cases b with
    | nil => exact absurd hab (by simp [strLeP, leStr])
    | cons y ys =>
      cases c with
      | nil => exact absurd hbc (by simp [strLeP, leStr])
      | cons z zs =>
        unfold strLeP at hab hbc ⊢
        simp only [leStr] at hab hbc ⊢
        rcases Nat.lt_trichotomy x y with h1 | h1 | h1
        · rcases Nat.lt_trichotomy y z with h2 | h2 | h2
          · simp [Nat.lt_trans h1 h2]
          · subst h2; simp [h1]
          · rw [if_neg (by omega), if_pos h2] at hbc
            exact absurd hbc (by simp)
        · subst h1
          rw [if_neg (Nat.lt_irrefl x), if_neg (Nat.lt_irrefl x)] at hab
          rcases Nat.lt_trichotomy x z with h2 | h2 | h2
          · simp [h2]
          · subst h2
            rw [if_neg (Nat.lt_irrefl x), if_neg (Nat.lt_irrefl x)] at hbc
            rw [if_neg (Nat.lt_irrefl x), if_neg (Nat.lt_irrefl x)]
            exact ih ys zs hab hbc
          · rw [if_neg (by omega), if_pos h2] at hbc
            exact absurd hbc (by simp)
        · rw [if_neg (by omega), if_pos h1] at hab
          exact absurd hab (by simp)

/-- The sorted list of distinct values of a column, as `pandas` produces
for pivot indices, pivot columns, `sorted(unique())` and group keys. -/
def uniqueSortedBy {α : Type} (r : α → α → Prop) [DecidableRel r] [DecidableEq α]
    (l : List α) : List α :=
  l.dedup.insertionSort r

section Aggregation

variable {R : Type} [LinearOrderedAddCommGroup R]

/-- `expenses = df[df['Category'] != 'Revenue']` (src/engine.py line 62). -/
def expensesOf (ts : List (CTxn R)) : List (CTxn R) :=
  ts.filter fun t => decide (t.category ≠ revenueStr)

/-- `groupby('Category')['Amount'].sum()` (src/engine.py line 63): pandas
groups with keys sorted ascending; each key is paired with the sum of the
amounts of its group. -/
def groupSumByCategory (ts : List (CTxn R)) : List (Str × R) :=
  (uniqueSortedBy strLeP (ts.map fun t => t.category)).map fun c =>
    (c, ((ts.filter fun t => decide (t.category = c)).map fun t => t.amount).sum)

/-- The comparison used by `sort_values('Amount')`. -/
def amountLe (a b : Str × R) : Prop := a.2 ≤ b.2

instance : DecidableRel (amountLe (R := R)) :=
  fun a b => inferInstanceAs (Decidable (a.2 ≤ b.2))

instance : IsTotal (Str × R) amountLe := ⟨fun a b => le_total a.2 b.2⟩

instance : IsTrans (Str × R) amountLe := ⟨fun _ _ _ h h' => le_trans h h'⟩

/-- `sort_values('Amount', ascending=False)` (src/engine.py line 64):
pandas (`nargsort`, pandas/core/sorting.py) reverses the array, argsorts
it ascending, and reverses the resulting indexer again; the double
reversal makes the descending sort stable, i.e. rows with equal amounts
keep their original relative order. The ascending argsort is modelled as
a stable insertion sort. -/
def sortValuesDesc (l : List (Str × R)) : List (Str × R) :=
  (List.insertionSort amountLe l.reverse).reverse

/-- The deterministic total order of the category summary: descending by
total amount, with ties between equal totals broken by category name
ascending. -/
def summaryOrder (a b : Str × R) : Prop :=
  b.2 ≤ a.2 ∧ (a.2 ≤ b.2 → strLtP a.1 b.1)

/-- `category_summary` (src/engine.py lines 62–64). -/
def categorySummary (ts : List (CTxn R)) : List (Str × R) :=
  sortValuesDesc (groupSumByCategory (expensesOf ts))

/-- The distinct months present in the data, ascending: the index of the
pivot in src/engine.py line 73 (`pivot_table(index='MonthNum', ...)`). -/
def monthsPresent (ts : List (CTxn R)) : List Nat :=
  uniqueSortedBy (· ≤ ·) (ts.map fun t => t.date.month)

/-- The distinct years present in the data, ascending: the columns of the
pivot in src/engine.py line 73, and `sorted(full_df['Year'].unique())` in
line 135. -/
def yearsPresent (ts : List (CTxn R)) : List Int :=
  uniqueSortedBy (· ≤ ·) (ts.map fun t => t.date.year)

/-- One cell of the pivot of src/engine.py line 73: the sum of the amounts
of the transactions of that (year, month); `fillna(0)` makes an empty cell
`0`, which coincides with the empty sum. -/
def cellSum (ts : List (CTxn R)) (y : Int) (m : Nat) : R :=
  ((ts.filter fun t => decide (t.date.year = y ∧ t.date.month = m)).map
    fun t => t.amount).sum

/-- `yoy_chart_data` (src/engine.py line 73): one row per month present in
the data, one column per year present, each cell the (year, month) sum. -/
def yoyMatrix (ts : List (CTxn R)) : List (Nat × List R) :=
  (monthsPresent ts).map fun m => (m, (yearsPresent ts).map fun y => cellSum ts y m)

/-- `totalRevenue`: sum of the amounts with category `"Revenue"`
(src/dashboard.py line 93, kpi metrics). -/
def totalRevenue (ts : List (CTxn R)) : R :=
  ((ts.filter fun t => decide (t.category = revenueStr)).map fun t => t.amount).sum

/-- `totalExpenses`: sum of the amounts with category other than
`"Revenue"` (src/dashboard.py line 94). -/
def totalExpenses (ts : List (CTxn R)) : R :=
  ((ts.filter fun t => decide (t.category ≠ revenueStr)).map fun t => t.amount).sum

/-- `netProfit = rev - exp` (src/dashboard.py line 95). -/
def netProfit (ts : List (CTxn R)) : R :=
  totalRevenue ts - totalExpenses ts

/-- The distinct months of one year's transactions, ascending:
`year_data.groupby('MonthNum')` keys in src/engine.py line 143. -/
def monthsOfYear (ts : List (CTxn R)) (y : Int) : List Nat :=
  uniqueSortedBy (· ≤ ·) ((ts.filter fun t => decide (t.date.year = y)).map
    fun t => t.date.month)

/-- For every year present (ascending), the number of month rows its
yearly table receives. -/
def yearMonthCounts (ts : List (CTxn R)) : List (Int × Nat) :=
  (yearsPresent ts).map fun y => (y, (monthsOfYear ts y).length)

end Aggregation

/-! ### Report layout (`FinancialEngine._style_excel`, src/engine.py lines 100–210)

Spreadsheet cells are addressed as (row, column) with column `B` = 2,
`C` = 3, `E` = 5, `H` = 8, as in openpyxl. -/

/-- `t1_end = 4 + cat_rows` (src/engine.py line 113): the last row of the
expense table, which spans rows 4..`t1_end` of columns B..C. -/
def t1End (catRows : Nat) : Nat := 4 + catRows

/-- The rows occupied by one yearly table block: the year-header label at
`headerRow` in column B, the column-header row at `tableStart`, and the
month rows down to `tableEnd`, all in columns B..C
(src/engine.py lines 147–169). -/
structure YearRegion where
  year : Int
  headerRow : Nat
  tableStart : Nat
  tableEnd : Nat
deriving DecidableEq

/-- The yearly-table loop of src/engine.py lines 139–176, started at
`current_row = row`: for a year with `k` present months it writes the year
header at `row`, the column-header row at `row + 1`, the `k` month rows at
`row + 2` .. `row + 1 + k`, and leaves the cursor at
`row + 1 + k + 3` for the next year (`current_row += 3`, line 176). -/
def layoutYears (row : Nat) : List (Int × Nat) → List YearRegion
  | [] => []
  | (y, k) :: rest =>
    { year := y, headerRow := row, tableStart := row + 1, tableEnd := row + 1 + k } ::
      layoutYears (row + 1 + k + 3) rest

/-- The whole stacked yearly-table layout: the loop starts at
`current_row = t1_end + 4` (src/engine.py line 137). -/
def yearTableLayout (catRows : Nat) (yms : List (Int × Nat)) : List YearRegion :=
  layoutYears (t1End catRows + 4) yms

section Layout

variable {R : Type} [LinearOrderedAddCommGroup R]

/-- The yearly-table regions the engine produces for a classified
transaction set: `cat_summary` supplies the expense-table height and the
(year, month-count) list drives the loop. -/
def regionsOf (ts : List (CTxn R)) : List YearRegion :=
  yearTableLayout (categorySummary ts).length (yearMonthCounts ts)

end Layout

/-- Membership of a spreadsheet cell in a yearly-table region: the region
spans rows `headerRow`..`tableEnd` of columns B (2) and C (3). -/
def regionCells (reg : YearRegion) (row col : Nat) : Prop :=
  reg.headerRow ≤ row ∧ row ≤ reg.tableEnd ∧ (col = 2 ∨ col = 3)

instance (reg : YearRegion) (row col : Nat) : Decidable (regionCells reg row col) := by
  unfold regionCells; infer_instance

/-- The anchor cell of the year-over-year trend chart:
`ws.add_chart(chart2, "H4")` (src/engine.py line 204), i.e. row 4,
column 8 — a fixed cell, not a cursor-derived one. -/
def trendChartAnchor : Nat × Nat := (4, 8)

/-! ### The pipeline's fallible steps (`__init__` and `run`)

`FinancialEngine.__init__` (src/engine.py lines 18–26) and the prefix of
`run` (lines 36–57) are modelled over an environment describing which
files exist and which configuration keys are present; each Python
`KeyError` / `FileNotFoundError` becomes an `Except` error. -/

/-- The error kinds the pipeline can raise before producing output. -/
inductive EngErr where
  | fileNotFound (what : String)
  | keyError (key : String)
deriving DecidableEq

/-- `config['column_mapping']` with each required key possibly absent. -/
structure ColumnMapping where
  date? : Option String
  description? : Option String
  amount? : Option String
deriving DecidableEq

/-- The parsed `config.json` with each section possibly absent. -/
structure Config where
  files? : Option (String × String)
  columnMapping? : Option ColumnMapping
  categories? : Option Rules
deriving DecidableEq

/-- The environment a run sees: whether the config file and the ledger
file exist, the parsed config, and the ledger's rows. -/
structure Env (R : Type) where
  configExists : Bool
  config : Config
  ledgerExists : Bool
  rawRows : List (RawRow R)
deriving DecidableEq

/-- `FinancialEngine.__init__` (src/engine.py lines 18–26): raise
`FileNotFoundError` when `config.json` is absent, otherwise load the
config. -/
def initEngine {R : Type} (env : Env R) : Except EngErr Config :=
  if env.configExists then .ok env.config
  else .error (.fileNotFound ("config.json"))

section Run

variable {R : Type} [LinearOrderedAddCommGroup R]

/-- `df['Description'].apply(self._get_category)` (src/engine.py line 57):
each application of `_get_category` reads `self.config['categories']`, so
the `KeyError` for a missing `categories` section fires on the first row —
and never fires when there are no rows. -/
def classifyAll (categories? : Option Rules) :
    List (Txn R) → Except EngErr (List (CTxn R))
  | [] => .ok []
  | t :: rest =>
    match categories? with
    | none => .error (.keyError ("categories"))
    | some rules =>
      match classifyAll categories? rest with
      | .error e => .error e
      | .ok cs => .ok (classify rules t :: cs)

/-- The data the run writes to the workbook (src/engine.py lines 85–94):
the category summary, the year-over-year pivot, and the classified raw
data. Only produced when no fatal error fired. -/
structure RunOutput (R : Type) where
  categorySummaryOut : List (Str × R)
  yoyOut : List (Nat × List R)
  rawOut : List (CTxn R)
deriving DecidableEq

/-- `FinancialEngine.run` up to the workbook write (src/engine.py lines
36–94), as a fallible function of the environment: construct the engine
(config lookup), look up `config['files']` (lines 38–39), read the ledger
(`pd.read_csv`, line 42, `FileNotFoundError` when absent), look up
`config['column_mapping']` and its three keys (lines 45–50), clean
(lines 53–56), classify (line 57), aggregate and emit. -/
def runEngine (env : Env R) : Except EngErr (RunOutput R) :=
  match initEngine env with
  | .error e => .error e
  | .ok config =>
    match config.files? with
    | none => .error (.keyError ("files"))
    | some _files =>
      if env.ledgerExists then
        match config.columnMapping? with
        | none => .error (.keyError ("column_mapping"))
        | some mapping =>
          match mapping.date? with
          | none => .error (.keyError ("date"))
          | some _ =>
            match mapping.description? with
            | none => .error (.keyError ("description"))
            | some _ =>
              match mapping.amount? with
              | none => .error (.keyError ("amount"))
              | some _ =>
                match classifyAll config.categories? (cleanRows env.rawRows) with
                | .error e => .error e
                | .ok classified =>
                  .ok { categorySummaryOut := categorySummary classified
                        yoyOut := yoyMatrix classified
                        rawOut := classified }
      else .error (.fileNotFound ("input ledger"))

end Run

/-! ## Helper lemmas -/

theorem firstMatch_eq_find (rules : Rules) (dl : Str) :
    firstMatch rules dl =
      match rules.find? (fun p => p.2.any fun k => isSub k dl) with
      | some p => p.1
      | none => uncategorized := by
  induction rules with
  | nil => rfl
  | cons p rest ih =>
    obtain ⟨category, keywords⟩ := p
    by_cases h : keywords.any (fun k => isSub k dl) = true
    · simp [firstMatch, List.find?_cons, h]
    · simp only [Bool.not_eq_true] at h
      simp [firstMatch, List.find?_cons, h, ih]

theorem isUpperCp_lowerCp (n : Nat) : isUpperCp (lowerCp n) = false := by
  unfold lowerCp
  by_cases h : isUpperCp n = true
  · rw [if_pos h]
    unfold isUpperCp at h ⊢
    simp only [Bool.and_eq_true, decide_eq_true_eq] at h
    simp only [Bool.and_eq_false_iff, decide_eq_false_iff_not]
    omega
  · rw [if_neg h]
    exact Bool.not_eq_true _ |>.mp h

theorem isSub_lowerStr_of_upper {k : Str} (d : Str) (h : k.any isUpperCp = true) :
    isSub k (lowerStr d) = false := by
  unfold isSub
  simp only [decide_eq_false_iff_not]
  intro hinf
  obtain ⟨c, hck, hc⟩ := List.any_eq_true.mp h
  have hcd : c ∈ lowerStr d := hinf.subset hck
  obtain ⟨c', _, rfl⟩ := List.mem_map.mp hcd
  rw [isUpperCp_lowerCp] at hc
  exact Bool.false_ne_true hc

theorem any_isSub_stripUpper (kws : List Str) (d : Str) :
    (kws.filter fun k => !k.any isUpperCp).any (fun k => isSub k (lowerStr d)) =
      kws.any (fun k => isSub k (lowerStr d)) := by
  induction kws with
  | nil => rfl
  | cons k rest ih =>
    by_cases hk : k.any isUpperCp = true
    · rw [List.filter_cons_of_neg (by simp [hk]), ih, List.any_cons,
        isSub_lowerStr_of_upper d hk]
      simp
    · rw [List.filter_cons_of_pos (by simp [Bool.not_eq_true _ |>.mp hk]),
        List.any_cons, List.any_cons, ih]

theorem mem_uniqueSortedBy {α : Type} (r : α → α → Prop) [DecidableRel r] [DecidableEq α]
    {a : α} {l : List α} : a ∈ uniqueSortedBy r l ↔ a ∈ l := by
  unfold uniqueSortedBy
  rw [List.mem_insertionSort, List.mem_dedup]

theorem nodup_uniqueSortedBy {α : Type} (r : α → α → Prop) [DecidableRel r] [DecidableEq α]
    (l : List α) : (uniqueSortedBy r l).Nodup :=
  (List.perm_insertionSort r l.dedup).nodup_iff.mpr (List.nodup_dedup l)

theorem sorted_lt_uniqueSortedBy {α : Type} [LinearOrder α] (l : List α) :
    List.Sorted (· < ·) (uniqueSortedBy (· ≤ ·) l) :=
  (List.sorted_insertionSort _ _).lt_of_le (nodup_uniqueSortedBy _ _)

theorem cleanRows_length {R : Type} [Zero R] (rows : List (RawRow R)) :
    (cleanRows rows).length = rows.countP fun r => r.date?.isSome := by
  induction rows with
  | nil => rfl
  | cons r rest ih =>
    unfold cleanRows at ih ⊢
    cases hd : r.date? <;>
      simp [List.filterMap_cons, cleanRow, hd, List.countP_cons, ih]

theorem sum_map_split {α R : Type} [AddCommMonoid R] (l : List α) (f g : α → R) :
    (l.map fun a => f a + g a).sum = (l.map f).sum + (l.map g).sum := by
  induction l with
  | nil => simp
  | cons a l ih => simp [ih, add_add_add_comm]

theorem sum_map_single {R : Type} [AddCommMonoid R] (keys : List Str) (hnd : keys.Nodup)
    (c0 : Str) (hc0 : c0 ∈ keys) (x : R) :
    (keys.map fun c => if c0 = c then x else 0).sum = x := by
  induction keys with
  | nil => cases hc0
  | cons k rest ih =>
    rcases List.mem_cons.mp hc0 with rfl | hmem
    · have hnotin : c0 ∉ rest := (List.nodup_cons.mp hnd).1
      rw [List.map_cons, if_pos rfl, List.sum_cons, List.sum_eq_zero, add_zero]
      intro v hv
      obtain ⟨c, hc, rfl⟩ := List.mem_map.mp hv
      rw [if_neg]
      intro h
      exact hnotin (h ▸ hc)
    · have hk : c0 ≠ k := by
        intro h
        exact (List.nodup_cons.mp hnd).1 (h ▸ hmem)
      rw [List.map_cons, if_neg hk, List.sum_cons, zero_add,
        ih (List.nodup_cons.mp hnd).2 hmem]

theorem sum_groups {R : Type} [AddCommMonoid R] (keys : List Str) (es : List (CTxn R))
    (hnd : keys.Nodup) (hcov : ∀ t ∈ es, t.category ∈ keys) :
    (keys.map fun c =>
        ((es.filter fun t => decide (t.category = c)).map fun t => t.amount).sum).sum
      = (es.map fun t => t.amount).sum := by
  induction es with
  | nil => simp
  | cons t rest ih =>
    have hsplit : ∀ c : Str,
        (((t :: rest).filter fun u => decide (u.category = c)).map fun u => u.amount).sum
          = (if t.category = c then t.amount else 0) +
            ((rest.filter fun u => decide (u.category = c)).map fun u => u.amount).sum := by
      intro c
      by_cases h : t.category = c
      · simp [List.filter_cons, h]
      · simp [List.filter_cons, h]
    rw [List.map_congr_left fun c _ => hsplit c, sum_map_split,
      sum_map_single keys hnd t.category (hcov t (List.mem_cons_self t rest)) t.amount,
      ih fun u hu => hcov u (List.mem_cons_of_mem t hu)]
    simp

theorem pairwise_strLt_uniqueSortedBy (l : List Str) :
    (uniqueSortedBy strLeP l).Pairwise strLtP :=
  (List.sorted_insertionSort strLeP l.dedup).and (nodup_uniqueSortedBy strLeP l)

theorem orderedInsert_stable {R : Type} [LinearOrderedAddCommGroup R] (a : Str × R) :
    ∀ m : List (Str × R),
      m.Pairwise (fun u v => u.2 ≤ v.2 ∧ (v.2 ≤ u.2 → strLtP v.1 u.1)) →
      (∀ b ∈ m, strLtP b.1 a.1) →
      (List.orderedInsert amountLe a m).Pairwise
        (fun u v => u.2 ≤ v.2 ∧ (v.2 ≤ u.2 → strLtP v.1 u.1)) := by
  intro m
  induction m with
  | nil => intro _ _; exact List.pairwise_singleton _ _
  | cons c m' ih =>
    intro hp hmem
    have hp' := List.pairwise_cons.mp hp
    simp only [List.orderedInsert]
    by_cases hac : amountLe a c
    · rw [if_pos hac, List.pairwise_cons]
      refine ⟨?_, hp⟩
      intro x hx
      rcases List.mem_cons.mp hx with rfl | hx'
      · exact ⟨hac, fun _ => hmem x (List.mem_cons_self _ _)⟩
      · exact ⟨le_trans hac (hp'.1 x hx').1,
          fun _ => hmem x (List.mem_cons_of_mem _ hx')⟩
    · rw [if_neg hac, List.pairwise_cons]
      refine ⟨?_, ih hp'.2 fun b hb => hmem b (List.mem_cons_of_mem _ hb)⟩
      intro x hx
      rcases (List.mem_orderedInsert _).mp hx with rfl | hx'
      · exact ⟨le_of_lt (not_le.mp hac), fun h => absurd h hac⟩
      · exact hp'.1 x hx'

theorem insertionSort_stable {R : Type} [LinearOrderedAddCommGroup R] :
    ∀ l : List (Str × R),
      l.Pairwise (fun u v => strLtP v.1 u.1) →
      (List.insertionSort amountLe l).Pairwise
        (fun u v => u.2 ≤ v.2 ∧ (v.2 ≤ u.2 → strLtP v.1 u.1)) := by
  intro l
  induction l with
  | nil => intro _; exact List.Pairwise.nil
  | cons a l ih =>
    intro hp
    have hp' := List.pairwise_cons.mp hp
    simp only [List.insertionSort]
    exact orderedInsert_stable a _ (ih hp'.2)
      fun b hb => hp'.1 b ((List.mem_insertionSort _).mp hb)

theorem layoutYears_facts (yms : List (Int × Nat)) :
    ∀ (row : Nat), ∀ reg ∈ layoutYears row yms,
      row ≤ reg.headerRow ∧ reg.tableStart = reg.headerRow + 1 ∧
        reg.headerRow ≤ reg.tableEnd := by
  induction yms with
  | nil =>
    intro row reg h
    simp [layoutYears] at h
  | cons p rest ih =>
    obtain ⟨y, k⟩ := p
    intro row reg h
    rw [layoutYears] at h
    rcases List.mem_cons.mp h with rfl | h'
    · refine ⟨le_refl _, rfl, ?_⟩
      dsimp only
      omega
    · have := ih (row + 1 + k + 3) reg h'
      omega

theorem layoutYears_head (y : Int) (k : Nat) (rest : List (Int × Nat)) (row : Nat) :
    layoutYears row ((y, k) :: rest)
      = { year := y, headerRow := row, tableStart := row + 1, tableEnd := row + 1 + k } ::
          layoutYears (row + 1 + k + 3) rest := rfl

theorem layoutYears_chain (yms : List (Int × Nat)) :
    ∀ row : Nat,
      List.Chain' (fun a b => a.tableEnd + 2 < b.headerRow ∧
          b.headerRow = a.headerRow + (1 + 1 + (a.tableEnd - a.tableStart) + 2))
        (layoutYears row yms) := by
  induction yms with
  | nil => intro row; exact List.chain'_nil
  | cons p rest ih =>
    obtain ⟨y, k⟩ := p
    intro row
    rw [layoutYears_head]
    cases rest with
    | nil => exact List.chain'_singleton _
    | cons q rest' =>
      obtain ⟨y', k'⟩ := q
      rw [layoutYears_head, List.chain'_cons]
      refine ⟨⟨?_, ?_⟩, ?_⟩
      · dsimp only; omega
      · dsimp only; omega
      · have := ih (row + 1 + k + 3)
        rw [layoutYears_head] at this
        exact this

theorem layoutYears_pairwise (yms : List (Int × Nat)) :
    ∀ row : Nat,
      (layoutYears row yms).Pairwise fun a b => a.tableEnd < b.headerRow := by
  induction yms with
  | nil => intro row; exact List.Pairwise.nil
  | cons p rest ih =>
    obtain ⟨y, k⟩ := p
    intro row
    rw [layoutYears_head, List.pairwise_cons]
    refine ⟨?_, ih (row + 1 + k + 3)⟩
    intro b hb
    have := layoutYears_facts rest (row + 1 + k + 3) b hb
    dsimp only
    omega

theorem layoutYears_shape (yms : List (Int × Nat)) :
    ∀ row : Nat,
      (layoutYears row yms).map
          (fun r => (r.year, r.tableStart - r.headerRow, r.tableEnd - r.tableStart))
        = yms.map fun p => (p.1, 1, p.2) := by
  induction yms with
  | nil => intro row; rfl
  | cons p rest ih =>
    obtain ⟨y, k⟩ := p
    intro row
    rw [layoutYears_head, List.map_cons, List.map_cons, ih (row + 1 + k + 3)]
    refine congrArg (· :: _) ?_
    dsimp only
    refine congrArg (Prod.mk y) ?_
    refine congrArg₂ Prod.mk ?_ ?_ <;> omega

/-! ## Claim theorems -/

/-- C2. For every description and every ordered rule set, the classifier
lower-cases the description, tests each category's keywords for a
substring match in the declared order, returns the first category with a
match, and `"Uncategorized"` when none matches (so a description matching
two categories resolves to the earlier one): the code's `_get_category`
coincides with the first-match classifier written from the
specification's words. -/
theorem getCategory_eq_specClassifier (rules : Rules) (d : Str) :
    getCategory rules d = specClassifier rules d := by
  unfold getCategory specClassifier
  exact firstMatch_eq_find rules (lowerStr d)

/-- C8 (counterexample). The interactive viewer's classifier and the
report pipeline's classifier disagree on a description matching no
keyword: the viewer returns `"Operating Exp"` while the engine, even when
configured with the viewer's exact rule set, returns `"Uncategorized"`. -/
theorem categorize_ne_getCategory :
    categorize (str ("misc zzz payment")) ≠
      getCategory viewerRules (str ("misc zzz payment")) := by decide

/-- C8 (amended). For every description, the viewer's classifier agrees
with the engine's classifier configured with the viewer's rule set
whenever some keyword matches; on unmatched descriptions the two differ
only in the fallback name: the viewer returns `"Operating Exp"` exactly
where the engine returns `"Uncategorized"`. -/
theorem categorize_eq_engine_up_to_fallback (d : Str) :
    categorize d =
      if getCategory viewerRules d = uncategorized then str ("Operating Exp")
      else getCategory viewerRules d := by
  cases h1 : viewerRevenueKws.any (fun x => isSub x (lowerStr d)) <;>
    cases h2 : viewerTechKws.any (fun x => isSub x (lowerStr d)) <;>
      cases h3 : viewerMealsKws.any (fun x => isSub x (lowerStr d)) <;>
        simp only [categorize, getCategory, viewerRules, firstMatch, h1, h2, h3,
          Bool.false_eq_true, if_false, if_true, reduceIte] <;> rfl

/-- C10. Because the description is lower-cased while keywords are matched
verbatim, a keyword containing an ASCII uppercase code point can never
match any description, and classification is unchanged when all such
keywords are removed from the rule set. -/
theorem uppercase_keywords_dead :
    (∀ k d : Str, k.any isUpperCp = true → isSub k (lowerStr d) = false) ∧
    ∀ (rules : Rules) (d : Str),
      getCategory rules d = getCategory (stripUpperKeywords rules) d := by
  constructor
  · exact fun k d h => isSub_lowerStr_of_upper d h
  · intro rules d
    unfold getCategory stripUpperKeywords
    induction rules with
    | nil => rfl
    | cons p rest ih =>
      obtain ⟨category, keywords⟩ := p
      simp only [List.map_cons, firstMatch, any_isSub_stripUpper, ih]

/-- C10 (witness). The uppercase keyword `"GitHub"` never matches, even a
description whose lower-casing contains `"github"`. -/
theorem uppercase_keywords_dead_witness :
    isSub (str ("GitHub")) (lowerStr (str ("GitHub billing"))) = false :=
  uppercase_keywords_dead.1 (str ("GitHub")) (str ("GitHub billing")) (by decide)

/-- C7. During loading, every row whose date fails to parse is discarded
(and only those rows, so an unparseable amount never drops a row); a
missing description becomes the (stripped) empty string; an amount that
fails to parse defaults to `0` while the row is retained. Cleaning is a
total function, so no error is raised. -/
theorem loader_cleaning {R : Type} [Zero R] (rows : List (RawRow R)) :
    ((cleanRows rows).length = rows.countP fun r => r.date?.isSome) ∧
    (∀ r : RawRow R, r.date? = none → cleanRow r = none) ∧
    ∀ r ∈ rows, ∀ d : Date, r.date? = some d →
      ({ date := d
         description := strip (r.description?.getD [])
         amount := r.amount?.getD 0 } : Txn R) ∈ cleanRows rows := by
  refine ⟨cleanRows_length rows, ?_, ?_⟩
  · intro r h
    simp [cleanRow, h]
  · intro r hr d hd
    unfold cleanRows
    rw [List.mem_filterMap]
    exact ⟨r, hr, by simp [cleanRow, hd]⟩

/-- C7 (witness). A concrete row with a parseable date, a missing
description and an unparseable amount is retained as a transaction with
empty description and amount 0. -/
theorem loader_cleaning_witness :
    ({ date := ⟨2024, 1⟩, description := [], amount := 0 } : Txn Int) ∈
      cleanRows [({ date? := some ⟨2024, 1⟩, description? := none,
                    amount? := none } : RawRow Int)] :=
  (loader_cleaning _).2.2
    ({ date? := some ⟨2024, 1⟩, description? := none, amount? := none } : RawRow Int)
    (by decide) ⟨2024, 1⟩ rfl

/-- C6. The KPI triple reconciles: `netProfit` equals `totalRevenue`
minus `totalExpenses`, and the sum of the `CategorySummary` totals equals
`totalExpenses`, in the exact arithmetic of the embedding. -/
theorem kpi_reconciliation {R : Type} [LinearOrderedAddCommGroup R] (ts : List (CTxn R)) :
    netProfit ts = totalRevenue ts - totalExpenses ts ∧
    ((categorySummary ts).map fun p => p.2).sum = totalExpenses ts := by
  refine ⟨rfl, ?_⟩
  unfold categorySummary sortValuesDesc
  rw [List.map_reverse, List.sum_reverse,
    ((List.perm_insertionSort amountLe _).map fun p : Str × R => p.2).sum_eq,
    List.map_reverse, List.sum_reverse]
  unfold groupSumByCategory
  rw [List.map_map]
  have := sum_groups (R := R)
    (uniqueSortedBy strLeP ((expensesOf ts).map fun t => t.category)) (expensesOf ts)
    (nodup_uniqueSortedBy _ _)
    (fun t ht => (mem_uniqueSortedBy _).mpr (List.mem_map_of_mem _ ht))
  simpa [Function.comp] using this

/-- C1 (counterexample). A data set whose transactions all fall in a
single month yields a year-month matrix with one row, not twelve. -/
theorem yoy_matrix_not_twelve_rows :
    (yoyMatrix [({ date := ⟨2024, 1⟩, description := [], amount := 5,
                   category := [] } : CTxn Int)]).length = 1 ∧
    (yoyMatrix [({ date := ⟨2024, 1⟩, description := [], amount := 5,
                   category := [] } : CTxn Int)]).length ≠ 12 := by decide

/-- C1 (amended). The year-month matrix has one row per *distinct month
present in the data*, in ascending order (not always 12 rows); its
columns are the distinct years present in the data in ascending order;
each row has one cell per year column; and any (year, month) cell with no
transactions holds exactly 0. -/
theorem yoy_matrix_shape {R : Type} [LinearOrderedAddCommGroup R] (ts : List (CTxn R)) :
    ((yoyMatrix ts).map Prod.fst = monthsPresent ts) ∧
    List.Sorted (· < ·) (monthsPresent ts) ∧
    (∀ m : Nat, m ∈ monthsPresent ts ↔ ∃ t ∈ ts, t.date.month = m) ∧
    List.Sorted (· < ·) (yearsPresent ts) ∧
    (∀ y : Int, y ∈ yearsPresent ts ↔ ∃ t ∈ ts, t.date.year = y) ∧
    (∀ row ∈ yoyMatrix ts, row.2.length = (yearsPresent ts).length) ∧
    ∀ (y : Int) (m : Nat), (∀ t ∈ ts, ¬(t.date.year = y ∧ t.date.month = m)) →
      cellSum ts y m = 0 := by
  refine ⟨?_, sorted_lt_uniqueSortedBy _, ?_, sorted_lt_uniqueSortedBy _, ?_, ?_, ?_⟩
  · rw [yoyMatrix, List.map_map]
    exact (List.map_congr_left fun a _ => rfl).trans (List.map_id _)
  · intro m
    rw [monthsPresent, mem_uniqueSortedBy, List.mem_map]
  · intro y
    rw [yearsPresent, mem_uniqueSortedBy, List.mem_map]
  · intro row hrow
    obtain ⟨m, _, rfl⟩ := List.mem_map.mp hrow
    simp
  · intro y m h
    unfold cellSum
    rw [List.filter_eq_nil_iff.mpr]
    · rfl
    · intro t ht
      simp only [decide_eq_true_eq]
      exact h t ht

/-- C1 (witness). In a one-transaction data set the cell of an absent
(year, month) pair is exactly 0. -/
theorem yoy_matrix_shape_witness :
    cellSum [({ date := ⟨2024, 1⟩, description := [], amount := 5,
                category := str ("Tech") } : CTxn Int)] 2025 7 = 0 :=
  (yoy_matrix_shape _).2.2.2.2.2.2 2025 7 (by decide)

/-- C4. `CategorySummary` consists of exactly the per-category sums of
the transactions whose category is not `"Revenue"` (its keys are the
distinct such categories), ordered by the deterministic total order
`summaryOrder`: descending by total amount, ties between equal totals
broken by category name ascending. The tie order holds because pandas'
`nargsort` reverses the array both before the ascending argsort and after
it, making the descending sort stable over the name-ascending group
keys. -/
theorem category_summary_grouped_sorted {R : Type} [LinearOrderedAddCommGroup R]
    (ts : List (CTxn R)) :
    (categorySummary ts).Perm (groupSumByCategory (expensesOf ts)) ∧
    ((groupSumByCategory (expensesOf ts)).map Prod.fst
      = uniqueSortedBy strLeP ((expensesOf ts).map fun t => t.category)) ∧
    List.Sorted summaryOrder (categorySummary ts) := by
  refine ⟨?_, ?_, ?_⟩
  · unfold categorySummary sortValuesDesc
    exact (List.reverse_perm _).trans
      ((List.perm_insertionSort _ _).trans (List.reverse_perm _))
  · rw [groupSumByCategory, List.map_map]
    exact (List.map_congr_left fun a _ => rfl).trans (List.map_id _)
  · unfold categorySummary sortValuesDesc
    apply List.pairwise_reverse.mpr
    have hg : (groupSumByCategory (expensesOf ts)).Pairwise
        (fun u v => strLtP u.1 v.1) := by
      unfold groupSumByCategory
      exact (pairwise_strLt_uniqueSortedBy _).map _ fun a b h => h
    have hrev : (groupSumByCategory (expensesOf ts)).reverse.Pairwise
        (fun u v => strLtP v.1 u.1) := List.pairwise_reverse.mpr hg
    exact insertionSort_stable _ hrev

/-- C4 (witness). Two expense categories `"A"` and `"B"` with equal
totals come out in ascending name order, and the summary is sorted by the
claimed deterministic order. -/
theorem category_summary_grouped_sorted_witness :
    categorySummary
        [(⟨⟨⟨2024, 1⟩, [], 5⟩, str ("A")⟩ : CTxn Int),
         (⟨⟨⟨2024, 1⟩, [], 5⟩, str ("B")⟩ : CTxn Int)]
      = [(str ("A"), 5), (str ("B"), 5)] ∧
    List.Sorted summaryOrder
      (categorySummary
        [(⟨⟨⟨2024, 1⟩, [], 5⟩, str ("A")⟩ : CTxn Int),
         (⟨⟨⟨2024, 1⟩, [], 5⟩, str ("B")⟩ : CTxn Int)]) :=
  ⟨by decide, (category_summary_grouped_sorted _).2.2⟩

/-- C5. In the stacked yearly-table layout: each yearly table has the
shape year header + column-header row + one row per month present that
year (the map equality), every yearly table starts strictly after the
expense table's last row plus the two-blank-row spacer, consecutive
yearly tables satisfy both that the next start row is strictly after the
previous table's last row plus the spacer and that the cursor advance
equals exactly year header (1) + column header (1) + month rows + spacer
(2), and no two yearly-table regions share a cell. -/
theorem yearly_tables_layout {R : Type} [LinearOrderedAddCommGroup R] (ts : List (CTxn R)) :
    ((regionsOf ts).map
        (fun r => (r.year, r.tableStart - r.headerRow, r.tableEnd - r.tableStart))
      = (yearMonthCounts ts).map fun p => (p.1, 1, p.2)) ∧
    (∀ reg ∈ regionsOf ts, t1End (categorySummary ts).length + 2 < reg.headerRow) ∧
    List.Chain' (fun a b => a.tableEnd + 2 < b.headerRow ∧
        b.headerRow = a.headerRow + (1 + 1 + (a.tableEnd - a.tableStart) + 2))
      (regionsOf ts) ∧
    (regionsOf ts).Pairwise fun a b =>
      ∀ row col, regionCells a row col → ¬ regionCells b row col := by
  refine ⟨layoutYears_shape _ _, ?_, layoutYears_chain _ _, ?_⟩
  · intro reg hreg
    have := layoutYears_facts (yearMonthCounts ts) (t1End (categorySummary ts).length + 4)
      reg hreg
    omega
  · refine (layoutYears_pairwise _ _).imp ?_
    intro a b hab
    intro row col hca hcb
    obtain ⟨_, ha2, _⟩ := hca
    obtain ⟨hb1, _, _⟩ := hcb
    omega

/-- C5 (witness). In a two-year layout, the cell (11, B) of the 2024
table lies in no other yearly-table region. -/
theorem yearly_tables_layout_witness :
    ¬ regionCells ⟨2025, 15, 16, 17⟩ 11 2 := by
  have h := (yearly_tables_layout
    [(⟨⟨⟨2024, 1⟩, str ("github"), -10⟩, str ("Tech")⟩ : CTxn Int),
     (⟨⟨⟨2025, 2⟩, str ("starbucks"), -5⟩, str ("Meals")⟩ : CTxn Int)]).2.2.2
  have e : regionsOf
      [(⟨⟨⟨2024, 1⟩, str ("github"), -10⟩, str ("Tech")⟩ : CTxn Int),
       (⟨⟨⟨2025, 2⟩, str ("starbucks"), -5⟩, str ("Meals")⟩ : CTxn Int)]
      = [⟨2024, 10, 11, 12⟩, ⟨2025, 15, 16, 17⟩] := by decide
  rw [e] at h
  exact (List.pairwise_cons.mp h).1 _ (List.mem_cons_self _ _) 11 2 (by decide)

/-- C3 (counterexample). With one category and one single-month year, the
last yearly table occupies rows 9–11, yet the trend chart's anchor row is
the fixed 4 (cell H4): the anchor row is smaller than, not at least, the
last table's last row plus the spacer, so it is not computed from the
final cursor. -/
theorem trend_anchor_fixed :
    regionsOf [(⟨⟨⟨2024, 1⟩, str ("github"), -20⟩, str ("Tech")⟩ : CTxn Int)]
      = [⟨2024, 9, 10, 11⟩] ∧
    trendChartAnchor = (4, 8) ∧
    ¬ 11 + 2 ≤ trendChartAnchor.1 := by decide

/-- C3 (amended). The trend chart is anchored at the fixed cell H4
(row 4, column 8), beside — not below — the stacked yearly tables: since
the yearly tables occupy only columns B and C, the anchor cell lies in no
yearly-table region, for every input. -/
theorem trend_anchor_outside_tables {R : Type} [LinearOrderedAddCommGroup R]
    (ts : List (CTxn R)) :
    ∀ reg ∈ regionsOf ts,
      ¬ regionCells reg trendChartAnchor.1 trendChartAnchor.2 := by
  intro reg _ h
  obtain ⟨_, _, h8⟩ := h
  rcases h8 with h8 | h8 <;> simp [trendChartAnchor] at h8

/-- C3 (witness). The anchor cell H4 is outside the single yearly-table
region of a one-transaction input. -/
theorem trend_anchor_outside_tables_witness :
    ¬ regionCells ⟨2024, 9, 10, 11⟩ trendChartAnchor.1 trendChartAnchor.2 :=
  trend_anchor_outside_tables
    [(⟨⟨⟨2024, 1⟩, str ("github"), -20⟩, str ("Tech")⟩ : CTxn Int)] _ (by decide)

/-- C9 (counterexample). When the `categories` section is absent but the
cleaned ledger is empty, the run completes without error — the pipeline
does not fail merely because `categories` is missing. -/
theorem run_missing_categories_empty_ok :
    runEngine ({ configExists := true
                 config := { files? := some (("data.csv", "report.xlsx"))
                             columnMapping? := some ⟨some ("Date"), some ("Memo"),
                               some ("Cost")⟩
                             categories? := none }
                 ledgerExists := true
                 rawRows := [] } : Env Int)
      = .ok ⟨[], [], []⟩ := rfl

/-- C9 (amended). The pipeline fails with a `FileNotFoundError`-kind
error when the config file or the ledger file is absent, and with a
`KeyError` (ConfigError-kind) when `config['files']`,
`config['column_mapping']`, or any of the three column-mapping keys
(`date`, `description`, `amount`) is absent; when the `categories`
section is absent the run fails iff at least one row survives
date-cleaning — with an empty cleaned ledger it completes and emits
empty aggregates. All these failures keep the run from producing any
output (the error is returned instead of a `RunOutput`). -/
theorem run_failures {R : Type} [LinearOrderedAddCommGroup R] (env : Env R) :
    (env.configExists = false →
      runEngine env = .error (.fileNotFound ("config.json"))) ∧
    (env.configExists = true → env.config.files? = none →
      runEngine env = .error (.keyError ("files"))) ∧
    (env.configExists = true → env.config.files?.isSome →
      env.ledgerExists = false →
      runEngine env = .error (.fileNotFound ("input ledger"))) ∧
    (env.configExists = true → env.config.files?.isSome →
      env.ledgerExists = true → env.config.columnMapping? = none →
      runEngine env = .error (.keyError ("column_mapping"))) ∧
    (env.configExists = true → env.config.files?.isSome →
      env.ledgerExists = true →
      ∀ m : ColumnMapping, env.config.columnMapping? = some m → m.date? = none →
        runEngine env = .error (.keyError ("date"))) ∧
    (env.configExists = true → env.config.files?.isSome →
      env.ledgerExists = true →
      ∀ m : ColumnMapping, env.config.columnMapping? = some m →
        m.date?.isSome → m.description? = none →
        runEngine env = .error (.keyError ("description"))) ∧
    (env.configExists = true → env.config.files?.isSome →
      env.ledgerExists = true →
      ∀ m : ColumnMapping, env.config.columnMapping? = some m →
        m.date?.isSome → m.description?.isSome → m.amount? = none →
        runEngine env = .error (.keyError ("amount"))) ∧
    (env.configExists = true → env.config.files?.isSome →
      env.ledgerExists = true →
      ∀ m : ColumnMapping, env.config.columnMapping? = some m →
        m.date?.isSome → m.description?.isSome → m.amount?.isSome →
        env.config.categories? = none → cleanRows env.rawRows ≠ [] →
        runEngine env = .error (.keyError ("categories"))) ∧
    (env.configExists = true → env.config.files?.isSome →
      env.ledgerExists = true →
      ∀ m : ColumnMapping, env.config.columnMapping? = some m →
        m.date?.isSome → m.description?.isSome → m.amount?.isSome →
        env.config.categories? = none → cleanRows env.rawRows = [] →
        runEngine env = .ok ⟨[], [], []⟩) := by
  obtain ⟨ce, ⟨cfiles, ccm, ccats⟩, le, rows⟩ := env
  refine ⟨?_, ?_, ?_, ?_, ?_, ?_, ?_, ?_, ?_⟩
  · rintro rfl
    simp [runEngine, initEngine]
  · rintro rfl hf
    simp only at hf
    subst hf
    simp [runEngine, initEngine]
  · rintro rfl hf rfl
    simp only at hf
    obtain ⟨f, hf⟩ := Option.isSome_iff_exists.mp hf
    subst hf
    simp [runEngine, initEngine]
  · rintro rfl hf rfl hm
    simp only at hf hm
    obtain ⟨f, hf⟩ := Option.isSome_iff_exists.mp hf
    subst hf hm
    simp [runEngine, initEngine]
  · rintro rfl hf rfl m hm hd
    simp only at hf hm
    obtain ⟨f, hf⟩ := Option.isSome_iff_exists.mp hf
    subst hf hm
    simp [runEngine, initEngine, hd]
  · rintro rfl hf rfl m hm hd hdesc
    simp only at hf hm
    obtain ⟨f, hf⟩ := Option.isSome_iff_exists.mp hf
    obtain ⟨vd, hvd⟩ := Option.isSome_iff_exists.mp hd
    subst hf hm
    simp [runEngine, initEngine, hvd, hdesc]
  · rintro rfl hf rfl m hm hd hdesc hamt
    simp only at hf hm
    obtain ⟨f, hf⟩ := Option.isSome_iff_exists.mp hf
    obtain ⟨vd, hvd⟩ := Option.isSome_iff_exists.mp hd
    obtain ⟨vdesc, hvdesc⟩ := Option.isSome_iff_exists.mp hdesc
    subst hf hm
    simp [runEngine, initEngine, hvd, hvdesc, hamt]
  · rintro rfl hf rfl m hm hd hdesc hamt hcats hrows
    simp only at hf hm hcats hrows
    obtain ⟨f, hf⟩ := Option.isSome_iff_exists.mp hf
    obtain ⟨vd, hvd⟩ := Option.isSome_iff_exists.mp hd
    obtain ⟨vdesc, hvdesc⟩ := Option.isSome_iff_exists.mp hdesc
    obtain ⟨vamt, hvamt⟩ := Option.isSome_iff_exists.mp hamt
    obtain ⟨t, rest, hrw⟩ := List.exists_cons_of_ne_nil hrows
    subst hf hm hcats
    simp [runEngine, initEngine, hvd, hvdesc, hvamt, hrw, classifyAll]
  · rintro rfl hf rfl m hm hd hdesc hamt hcats hrows
    simp only at hf hm hcats hrows
    obtain ⟨f, hf⟩ := Option.isSome_iff_exists.mp hf
    obtain ⟨vd, hvd⟩ := Option.isSome_iff_exists.mp hd
    obtain ⟨vdesc, hvdesc⟩ := Option.isSome_iff_exists.mp hdesc
    obtain ⟨vamt, hvamt⟩ := Option.isSome_iff_exists.mp hamt
    subst hf hm hcats
    simp [runEngine, initEngine, hvd, hvdesc, hvamt, hrows, classifyAll]
    exact ⟨rfl, rfl⟩

/-- C9 (witness). An absent config file makes the run fail with the
`FileNotFoundError`-kind error before anything else happens. -/
theorem run_failures_witness :
    runEngine ({ configExists := false
                 config := ⟨none, none, none⟩
                 ledgerExists := false
                 rawRows := [] } : Env Int)
      = .error (.fileNotFound ("config.json")) :=
  (run_failures _).1 rfl

end AutoCFO
